import Mathlib

/-!
Verification of the adaptive learning engine of the chef-ai-learning-lab
repository (backend/app/learning_system.py and backend/learning/core.py).

Modelling conventions:
* Python `float` values are modelled as `ℚ` (all constants in the source are
  decimal literals; rounding behaviour of IEEE floats is outside the model).
* A Python `dict` is modelled as an insertion-ordered association list
  (`Dict K V` below): assignment to a present key updates its value in place,
  assignment to an absent key appends it at the end, exactly as CPython does.
* Exceptions are modelled with `Except`/`Option`; a function that in Python
  mutates `self` and may raise returns the (possibly partially mutated) state
  together with an `Except` result, because in Python the mutations performed
  before the raise survive.
-/

/-- A Python `dict` as an insertion-ordered association list. -/
abbrev Dict (K V : Type) : Type := List (K × V)

/-- `d[k]` lookup: first entry whose key equals `k`. -/
def dget {K V : Type} [DecidableEq K] : Dict K V → K → Option V
  | [], _ => none
  | (k, v) :: rest, key => if k = key then some v else dget rest key

/-- `d[k] = v` assignment: update in place when present, append when absent. -/
def dset {K V : Type} [DecidableEq K] : Dict K V → K → V → Dict K V
  | [], key, val => [(key, val)]
  | (k, v) :: rest, key, val =>
    if k = key then (key, val) :: rest else (k, v) :: dset rest key val

/-- The keys of a dict, in insertion order. -/
def dkeys {K V : Type} (d : Dict K V) : List K := d.map (·.1)

/-- `d[k] += x` for a `ℚ`-valued dict.  In the source this is only executed on
keys that are already present (the `changes` dict is created with all eight
category keys), so reading an absent key as `0` is never exercised. -/
def dAdd (d : Dict String ℚ) (k : String) (x : ℚ) : Dict String ℚ :=
  dset d k ((dget d k).getD 0 + x)

theorem dget_dset {K V : Type} [DecidableEq K] (d : Dict K V) (k k' : K) (v : V) :
    dget (dset d k v) k' = if k' = k then some v else dget d k' := by
  induction d with
  | nil =>
    by_cases h : k' = k
    · simp [dget, dset, h]
    · simp [dget, dset, h, Ne.symm h]
  | cons p rest ih =>
    obtain ⟨pk, pv⟩ := p
    by_cases h1 : pk = k
    · subst h1
      by_cases h2 : k' = pk
      · subst h2; simp [dget, dset]
      · simp [dget, dset, h2, Ne.symm h2]
    · by_cases h2 : k' = k
      · subst h2
        simp [dget, dset, h1, Ne.symm h1, ih]
      · by_cases h3 : pk = k'
        · simp [dget, dset, h1, h2, h3]
        · simp [dget, dset, h1, h2, h3, ih]

theorem dkeys_dset_of_isSome {K V : Type} [DecidableEq K] (d : Dict K V) (k : K) (v : V)
    (h : (dget d k).isSome) : dkeys (dset d k v) = dkeys d := by
  induction d with
  | nil => simp [dget] at h
  | cons p rest ih =>
    obtain ⟨pk, pv⟩ := p
    by_cases h1 : pk = k
    · subst h1; simp [dset, dkeys]
    · simp [dget, h1] at h
      simp [dset, dkeys, h1] at ih ⊢
      exact ih h

theorem mem_dset {K V : Type} [DecidableEq K] (d : Dict K V) (k : K) (v : V) (p : K × V)
    (h : p ∈ dset d k v) : p ∈ d ∨ p = (k, v) := by
  induction d with
  | nil => simp [dset] at h; simp [h]
  | cons q rest ih =>
    obtain ⟨qk, qv⟩ := q
    by_cases h1 : qk = k
    · subst h1
      simp [dset] at h
      rcases h with h | h
      · right; simp [h]
      · left; simp [h]
    · simp [dset, h1] at h
      rcases h with h | h
      · left; simp [h]
      · rcases ih h with h2 | h2
        · left; simp [h2]
        · right; exact h2

/-- The eight skill categories of `CulinaryMastery.SkillCategory`, in
declaration order. -/
inductive SkillCategory where
  | technique_mastery
  | flavor_pairing
  | timing_control
  | ingredient_knowledge
  | recipe_complexity
  | seasoning_expertise
  | temperature_control
  | presentation
deriving DecidableEq

/-- The `.value` string of each enum member. -/
def SkillCategory.value : SkillCategory → String
  | .technique_mastery => "technique_mastery"
  | .flavor_pairing => "flavor_pairing"
  | .timing_control => "timing_control"
  | .ingredient_knowledge => "ingredient_knowledge"
  | .recipe_complexity => "recipe_complexity"
  | .seasoning_expertise => "seasoning_expertise"
  | .temperature_control => "temperature_control"
  | .presentation => "presentation"

/-- Iteration order of `CulinaryMastery.SkillCategory` (enum declaration
order). -/
def allCategories : List SkillCategory :=
  [.technique_mastery, .flavor_pairing, .timing_control, .ingredient_knowledge,
   .recipe_complexity, .seasoning_expertise, .temperature_control, .presentation]

def categoryNames : List String := allCategories.map (·.value)

/-- A recipe step as consumed by `_calculate_complexity`; only the `time`
field is ever read by the learning core (`step.time`), so the other pydantic
fields (`step_number`, `instruction`, `tips`) are omitted.  `none` models
`time=None`. -/
structure RecipeStep where
  time : Option String
deriving DecidableEq

/-- One entry of `recipe["ingredients"]`; the learning core only reads
`ing["item"]` (the `amount`/`preparation` keys are never read). -/
structure Ingredient where
  item : String
deriving DecidableEq

/-- The parts of the `recipe` dict read by `evaluate_recipe_success`. -/
structure Recipe where
  ingredients : List Ingredient
  techniques : List String
  steps : List RecipeStep
deriving DecidableEq

/-- A key of the `known_recipes` dict.  The code inserts string keys
(`str(combination)`) but membership-tests the raw tuple
`(frozenset, frozenset)`; a Python dict can hold either, and a tuple never
equals a string, which is exactly what the two constructors capture. -/
inductive RKey where
  | strKey (s : String)
  | tupleKey (ings : Finset String) (techs : Finset String)
deriving DecidableEq

/-- Value stored in `known_recipes`.  The `first_attempted` wall-clock
timestamp (`datetime.now().isoformat()`) is an opaque string no claim
references and is omitted. -/
structure RecipeInfo where
  times_attempted : ℕ
deriving DecidableEq

/-- State of a `CulinaryMastery` object.  `categories` is keyed by the
`.value` string of each enum member (the enum members are in bijection with
their value strings).  `learning_history` and `experimentation_outcomes` are
never appended to by the code; their element type is opaque. -/
structure CulinaryMastery where
  categories : Dict String ℚ
  learning_history : List String
  experimentation_outcomes : List String
  successful_innovations : Finset (Finset String)
deriving DecidableEq

/-- State of a `LearningSystem` object.  `successful_innovations_attr` models
the attribute read at line 70 (`self.successful_innovations.add`): Python
attributes are dynamic and `LearningSystem.__init__` never creates this one,
so it is `none` in the initial state; reading it while `none` is an
`AttributeError`. -/
structure LearningSystem where
  mastery : CulinaryMastery
  known_recipes : Dict RKey RecipeInfo
  ingredient_relationships : Dict String (List String)
  technique_proficiency : Dict String ℚ
  flavor_combinations : Dict String (Dict String ℚ)
  innovation_attempts : List String
  feedback_history : List String
  successful_innovations_attr : Option (Finset (Finset String))
deriving DecidableEq

def initMastery : CulinaryMastery :=
  ⟨allCategories.map (fun c => (c.value, 0)), [], [], ∅⟩

def initLearningSystem : LearningSystem :=
  ⟨initMastery, [], [], [], [], [], [], none⟩

/-! ### `_calculate_complexity` (learning_system.py lines 79-99) -/

/-- Value of a non-empty all-digit character list, most significant first. -/
def digitsVal : List Char → ℕ → Option ℕ
  | [], acc => some acc
  | c :: rest, acc =>
    if c.isDigit then digitsVal rest (acc * 10 + (c.toNat - 48)) else none

/-- Python `int(s)`: optional surrounding whitespace, optional sign, then a
non-empty digit string; anything else raises `ValueError` (modelled `none`).
(Underscore digit grouping is not used by any string in this repository.) -/
def parsePyInt (s : String) : Option ℤ :=
  match (s.trim).toList with
  | [] => none
  | '-' :: rest =>
    if rest = [] then none else (digitsVal rest 0).map (fun n => -(n : ℤ))
  | '+' :: rest =>
    if rest = [] then none else (digitsVal rest 0).map (fun n => (n : ℤ))
  | cs => (digitsVal cs 0).map (fun n => (n : ℤ))

/-- `int(step.time.split("-")[0])`. -/
def timeLead (s : String) : Option ℤ := parsePyInt ((s.splitOn "-").headD "")

/-- `sum(int(step.time.split("-")[0]) for step in recipe["steps"] if step.time)`.
`if step.time` is false for `None` and for the empty string.  A failing
`int(...)` raises `ValueError`, aborting the sum. -/
def totalTimeMinutes (steps : List RecipeStep) : Except String ℤ :=
  steps.foldl (fun acc step =>
    match acc with
    | .error e => .error e
    | .ok n =>
      match step.time with
      | none => .ok n
      | some s =>
        if s = "" then .ok n
        else
          match timeLead s with
          | some v => .ok (n + v)
          | none => .error "ValueError: invalid literal for int"
    ) (.ok 0)

/-- `_calculate_complexity`: average of four saturating factors. -/
def calcComplexity (recipe : Recipe) : Except String ℚ :=
  let c1 := min 1 ((recipe.ingredients.length : ℚ) / 10)
  let c2 := min 1 ((recipe.techniques.length : ℚ) / 5)
  let c3 := min 1 ((recipe.steps.length : ℚ) / 15)
  match totalTimeMinutes recipe.steps with
  | .error e => .error e
  | .ok t => .ok ((c1 + c2 + c3 + min 1 ((t : ℚ) / 60)) / 4)

/-! ### `_update_flavor_pairing` (learning_system.py lines 101-115) -/

/-- `change = 1 if success == 1 else -0.5`. -/
def flavorChange (success : ℚ) : ℚ := if success = 1 then 1 else -(1/2)

/-- `self.flavor_combinations[k]` once `k`'s row exists (reads `[]` when the
row is absent, which the code never does without initializing first). -/
def fcRow (fc : Dict String (Dict String ℚ)) (k : String) : Dict String ℚ :=
  (dget fc k).getD []

/-- The accumulator value of the ordered cell `(a, b)`, reading absent cells
as the initialization value `0`. -/
def fcVal (fc : Dict String (Dict String ℚ)) (a b : String) : ℚ :=
  (dget (fcRow fc a) b).getD 0

/-- `if k not in fc: fc[k] = {}`. -/
def fcEnsureRow (fc : Dict String (Dict String ℚ)) (k : String) :
    Dict String (Dict String ℚ) :=
  if (dget fc k).isSome then fc else dset fc k []

/-- `if b not in fc[a]: fc[a][b] = 0`. -/
def fcEnsureCell (fc : Dict String (Dict String ℚ)) (a b : String) :
    Dict String (Dict String ℚ) :=
  if (dget (fcRow fc a) b).isSome then fc else dset fc a (dset (fcRow fc a) b 0)

/-- `fc[a][b] += x` (the cell is guaranteed present by the preceding
initialization, so the `getD 0` default is never exercised there). -/
def fcAdd (fc : Dict String (Dict String ℚ)) (a b : String) (x : ℚ) :
    Dict String (Dict String ℚ) :=
  dset fc a (dset (fcRow fc a) b (fcVal fc a b + x))

/-- `_update_flavor_pairing(ing1, ing2, success)`: initialize both rows and
both directed cells, then add `change` to both directions.  When
`ing1 = ing2` the two `+=` lines hit the same cell, adding `change` twice. -/
def updateFlavorPairing (fc : Dict String (Dict String ℚ)) (ing1 ing2 : String)
    (success : ℚ) : Dict String (Dict String ℚ) :=
  let fc1 := fcEnsureRow fc ing1
  let fc2 := fcEnsureRow fc1 ing2
  let fc3 := fcEnsureCell fc2 ing1 ing2
  let fc4 := fcEnsureCell fc3 ing2 ing1
  fcAdd (fcAdd fc4 ing1 ing2 (flavorChange success)) ing2 ing1 (flavorChange success)

/-- The position pairs `i < j` visited by the double loop at lines 61-63, in
visit order. -/
def pairsOf : List String → List (String × String)
  | [] => []
  | x :: xs => (xs.map (fun y => (x, y))) ++ pairsOf xs

/-- The flavor-pairing pass of `evaluate_recipe_success` (lines 60-64). -/
def flavorFold (fc : Dict String (Dict String ℚ)) (ps : List (String × String))
    (rating : ℚ) : Dict String (Dict String ℚ) :=
  ps.foldl (fun fc p => updateFlavorPairing fc p.1 p.2 rating) fc

/-! ### `_is_novel_combination` (learning_system.py lines 117-134) -/

/-- Deterministic stand-in for Python's `str()` rendering of the
`(frozenset, frozenset)` tuple.  The exact rendering is immaterial to every
claim: what matters is that equal combinations yield equal strings and that
the resulting key is a *string* key, never equal to the tuple used in the
membership test. -/
def strOfNames (s : Finset String) : String :=
  String.intercalate "," (s.sort (· ≤ ·))

def strOfCombination (ings techs : Finset String) : String :=
  "(" ++ strOfNames ings ++ ")|(" ++ strOfNames techs ++ ")"

/-- `_is_novel_combination`.  The membership test `combination not in
self.known_recipes` compares the tuple against the dict's keys, which are all
strings (inserted as `str(combination)`), so it never finds a match.  The
`else` branch does `+=` on `known_recipes[str(combination)]`, a `KeyError`
(modelled `none`) when that string key is absent. -/
def isNovelCombination (st : LearningSystem) (recipe : Recipe) :
    Option (Bool × LearningSystem) :=
  let ings : Finset String := (recipe.ingredients.map (·.item)).toFinset
  let techs : Finset String := recipe.techniques.toFinset
  let isNovel := (dget st.known_recipes (RKey.tupleKey ings techs)).isNone
  let skey := RKey.strKey (strOfCombination ings techs)
  if isNovel then
    some (true, { st with known_recipes := dset st.known_recipes skey ⟨1⟩ })
  else
    match dget st.known_recipes skey with
    | some info =>
      some (false,
        { st with known_recipes := dset st.known_recipes skey ⟨info.times_attempted + 1⟩ })
    | none => none

/-! ### `_update_mastery_levels` (learning_system.py lines 136-151) -/

/-- `feedback_multiplier = 1.0 if feedback["rating"] == 1 else -0.5`. -/
def feedbackMultiplier (rating : ℚ) : ℚ := if rating = 1 then 1 else -(1/2)

/-- The `for category in CulinaryMastery.SkillCategory` loop.  A lookup of an
absent key raises `KeyError`, which aborts the loop keeping the assignments
already made (Python semantics). -/
def masteryGo (changes : Dict String ℚ) (complexity rating : ℚ) :
    List SkillCategory → Dict String ℚ → Dict String ℚ × Option String
  | [], cats => (cats, none)
  | c :: rest, cats =>
    match dget cats c.value with
    | none => (cats, some "KeyError")
    | some cur =>
      match dget changes c.value with
      | none => (cats, some "KeyError")
      | some raw =>
        let rate := (1/10) * (1 - cur)
        let change := raw * complexity * feedbackMultiplier rating * rate
        masteryGo changes complexity rating rest
          (dset cats c.value (max 0 (min 1 (cur + change))))

def updateMasteryLevels (cats changes : Dict String ℚ) (complexity rating : ℚ) :
    Dict String ℚ × Option String :=
  masteryGo changes complexity rating allCategories cats

/-! ### `evaluate_recipe_success` (learning_system.py lines 40-77) -/

/-- `changes = {category.value: 0.0 for category in SkillCategory}`. -/
def initChanges : Dict String ℚ := allCategories.map (fun c => (c.value, 0))

/-- One iteration of the technique loop at lines 52-57. -/
def techniqueStep (complexity : ℚ) (acc : Dict String ℚ × Dict String ℚ)
    (t : String) : Dict String ℚ × Dict String ℚ :=
  let tp := acc.1
  let tp1 := if (dget tp t).isSome then tp else dset tp t (1/10)
  let tp2 := dset tp1 t (min 1 ((dget tp1 t).getD 0 + (1/10) * complexity))
  (tp2, dAdd acc.2 "technique_mastery" (1/20))

def techniqueLoop (tp changes : Dict String ℚ) (techniques : List String)
    (complexity : ℚ) : Dict String ℚ × Dict String ℚ :=
  techniques.foldl (techniqueStep complexity) (tp, changes)

def attrErrorMsg : String :=
  "AttributeError: LearningSystem object has no attribute successful_innovations"

/-- The trailing `_update_mastery_levels` call and the `return changes`. -/
def finishEvaluate (st : LearningSystem) (changes : Dict String ℚ)
    (complexity rating : ℚ) : LearningSystem × Except String (Dict String ℚ) :=
  match updateMasteryLevels st.mastery.categories changes complexity rating with
  | (cats, none) =>
    ({ st with mastery := { st.mastery with categories := cats } }, .ok changes)
  | (cats, some e) =>
    ({ st with mastery := { st.mastery with categories := cats } }, .error e)

/-- `evaluate_recipe_success(recipe, {"rating": rating})`.  Returns the state
after the call (including the mutations made before any raise) together with
either the returned `changes` dict or the exception message. -/
def evaluateRecipeSuccess (st : LearningSystem) (recipe : Recipe) (rating : ℚ) :
    LearningSystem × Except String (Dict String ℚ) :=
  match calcComplexity recipe with
  | .error e => (st, .error e)
  | .ok complexity =>
    let tpch :=
      if rating = 1 then
        techniqueLoop st.technique_proficiency initChanges recipe.techniques complexity
      else (st.technique_proficiency, initChanges)
    let items := recipe.ingredients.map (·.item)
    let fc := flavorFold st.flavor_combinations (pairsOf items) rating
    let st1 := { st with technique_proficiency := tpch.1, flavor_combinations := fc }
    match isNovelCombination st1 recipe with
    | none => (st1, .error "KeyError")
    | some (novel, st2) =>
      if novel then
        let changes2 := dAdd tpch.2 "recipe_complexity" (1/10)
        if rating = 1 then
          match st2.successful_innovations_attr with
          | none => (st2, .error attrErrorMsg)
          | some s =>
            let st3 := { st2 with
              successful_innovations_attr := some (insert items.toFinset s) }
            finishEvaluate st3 changes2 complexity rating
        else finishEvaluate st2 changes2 complexity rating
      else finishEvaluate st2 tpch.2 complexity rating

/-- The recipe dict built by the `/api/learn` endpoint (app/main.py lines
298-303): `{"ingredients": [{"item": ing} for ing in ...], "techniques": ...,
"steps": []}`. -/
def mkFeedbackRecipe (ingredients : List String) (techniques : List String) : Recipe :=
  ⟨ingredients.map Ingredient.mk, techniques, []⟩

/-- A sequence of feedback events applied from the freshly constructed
system.  A raise inside one call keeps the mutations made before it (the
module-level `learning_system` object survives the failed request). -/
def applyEvents (events : List (Recipe × ℚ)) : LearningSystem :=
  events.foldl (fun st e => (evaluateRecipeSuccess st e.1 e.2).1) initLearningSystem

/-! ### `suggest_experiments` (learning_system.py lines 170-196) -/

/-- One element of the list returned by `suggest_experiments`. -/
structure Experiment where
  ingredients : List String
  reasoning : String
  confidence : ℚ
deriving DecidableEq

/-- Comparison used to model `sorted(experiments, key=lambda x: x["confidence"],
reverse=True)` via a stable merge sort: `e1` may come before `e2` iff
`e2.confidence ≤ e1.confidence`. -/
def expLe (e1 e2 : Experiment) : Bool := decide (e2.confidence ≤ e1.confidence)

/-- The experiment list before sorting, in generation order: outer loop over
the keys of `flavor_combinations` in insertion order, then over the
positive-score partners of `ing1` in row order, then over the items of
`ing2`'s row in row order. -/
def suggestExperimentsRaw (fc : Dict String (Dict String ℚ)) : List Experiment :=
  (dkeys fc).flatMap (fun ing1 =>
    let row1 := fcRow fc ing1
    let successfulPairs := (row1.filter (fun p => decide (0 < p.2))).map (·.1)
    successfulPairs.flatMap (fun ing2 =>
      (fcRow fc ing2).filterMap (fun p =>
        if 0 < p.2 ∧ (dget row1 p.1).isNone ∧ p.1 ≠ ing1 then
          some ⟨[ing1, p.1], "Based on mutual success with " ++ ing2,
                min ((dget row1 ing2).getD 0) ((dget (fcRow fc ing2) p.1).getD 0) / 10⟩
        else none)))

/-- `suggest_experiments`: the generated list, stably sorted by descending
confidence (Python's `sorted` is stable; `List.mergeSort` is its stable
counterpart). -/
def suggestExperiments (fc : Dict String (Dict String ℚ)) : List Experiment :=
  (suggestExperimentsRaw fc).mergeSort expLe

/-! ### `IngredientLearner` (learning/core.py lines 54-87) -/

/-- State of an `IngredientLearner`.  Both matrices are
`defaultdict(lambda: defaultdict(...))`, i.e. total maps whose absent entries
read as the default (`0.0` for scores, `1.0` for confidences); only the
values are ever observed, so the total-function representation is exact.
The `_update_embeddings` call mutates only the dead placeholder embedding
model (its body is a comment) and is omitted. -/
structure IngredientLearner where
  compatibility_matrix : String → String → ℚ
  confidence_scores : String → String → ℚ

def initIngredientLearner : IngredientLearner :=
  ⟨fun _ _ => 0, fun _ _ => 1⟩

/-- The ordered pairs `(i1, i2)` with `i1 != i2` visited by the double loop of
`learn_from_feedback`, in visit order. -/
def orderedPairs (ingredients : List String) : List (String × String) :=
  ingredients.flatMap (fun i1 =>
    ingredients.filterMap (fun i2 => if i1 ≠ i2 then some (i1, i2) else none))

/-- The Bayesian blend applied to one ordered cell. -/
def bayesStep (rating : ℚ) (st : IngredientLearner) (p : String × String) :
    IngredientLearner :=
  let s := st.compatibility_matrix p.1 p.2
  let c := st.confidence_scores p.1 p.2
  { compatibility_matrix := fun a b =>
      if a = p.1 ∧ b = p.2 then (s * c + rating) / (c + 1)
      else st.compatibility_matrix a b,
    confidence_scores := fun a b =>
      if a = p.1 ∧ b = p.2 then c + 1 else st.confidence_scores a b }

/-- `IngredientLearner.learn_from_feedback`. -/
def learnFromFeedback (st : IngredientLearner) (ingredients : List String)
    (rating : ℚ) : IngredientLearner :=
  (orderedPairs ingredients).foldl (bayesStep rating) st

/-- A sequence of `learn_from_feedback` calls from the initial state. -/
def applyCompatUpdates (updates : List (List String × ℚ)) : IngredientLearner :=
  updates.foldl (fun st u => learnFromFeedback st u.1 u.2) initIngredientLearner

/-! ### `RecipeLearner` (learning/core.py lines 89-113) -/

/-- State of a `RecipeLearner`: the directed technique graph is represented by
its weighted edge set (`networkx` edge attribute `weight`), plus the
`technique_difficulties` dict keyed by `(tech1, tech2)` tuples. -/
structure RecipeLearner where
  technique_graph : Dict (String × String) ℕ
  technique_difficulties : Dict (String × String) ℚ
  successful_patterns : List (List String)
deriving DecidableEq

def initRecipeLearner : RecipeLearner := ⟨[], [], []⟩

/-- The consecutive pairs `(techniques[i], techniques[i+1])`. -/
def consecutivePairs (l : List String) : List (String × String) := l.zip l.tail

/-- `_update_difficulty`: exponential blend with neutral prior `0.5`. -/
def updateDifficulty (rl : RecipeLearner) (t1 t2 : String) (rating : ℚ) :
    RecipeLearner :=
  let cur := (dget rl.technique_difficulties (t1, t2)).getD (1/2)
  { rl with technique_difficulties := dset rl.technique_difficulties (t1, t2) ((cur + rating) / 2) }

/-- One iteration of the loop in `learn_technique_sequence`: create the edge
at weight 1 or increment it, then update its difficulty. -/
def techEdgeStep (rating : ℚ) (rl : RecipeLearner) (p : String × String) :
    RecipeLearner :=
  let rl1 :=
    match dget rl.technique_graph p with
    | none => { rl with technique_graph := dset rl.technique_graph p 1 }
    | some w => { rl with technique_graph := dset rl.technique_graph p (w + 1) }
  updateDifficulty rl1 p.1 p.2 rating

/-- `RecipeLearner.learn_technique_sequence`: gated on
`success_rating > 0.7`. -/
def learnTechniqueSequence (rl : RecipeLearner) (techniques : List String)
    (success_rating : ℚ) : RecipeLearner :=
  if success_rating > 7/10 then
    (consecutivePairs techniques).foldl (techEdgeStep success_rating) rl
  else rl

/-! ### `ComplexityManager` (learning/core.py lines 147-181) -/

structure ProgressionEntry where
  level : ℤ
  success_rate : ℚ
  timestamp : Option String
deriving DecidableEq

structure ComplexityManager where
  current_level : ℤ
  progression_history : List ProgressionEntry
deriving DecidableEq

/-- The parts of `recipe_data` read by `update_complexity`; each is fetched
with `.get`, so each may be absent. -/
structure RecipeData where
  rating : Option ℚ
  techniques : Option (List String)
  timestamp : Option String

def initComplexityManager : ComplexityManager := ⟨0, []⟩

/-- `ComplexityManager.update_complexity`. -/
def updateComplexity (cm : ComplexityManager) (rd : RecipeData) : ComplexityManager :=
  let success_rate := rd.rating.getD 0
  let technique_count := (rd.techniques.getD []).length
  let lvl :=
    if success_rate > 8/10 ∧ (technique_count : ℚ) ≥ (cm.current_level : ℚ) / 10 then
      min 100 (cm.current_level + 5)
    else if success_rate < 3/10 then max 0 (cm.current_level - 2)
    else cm.current_level
  { current_level := lvl,
    progression_history :=
      cm.progression_history ++ [⟨lvl, success_rate, rd.timestamp⟩] }

/-- A sequence of `update_complexity` calls. -/
def applyComplexityUpdates (cm : ComplexityManager) (rds : List RecipeData) :
    ComplexityManager :=
  rds.foldl updateComplexity cm

/-! ### `load_state` (learning_system.py lines 217-239) -/

/-- The `state["mastery"]` sub-document of a parsed snapshot; `none` fields
model absent JSON keys (their access raises `KeyError`). -/
structure MasteryDoc where
  categories : Option (Dict String ℚ)
  learning_history : Option (List String)
  successful_innovations : Option (List (List String))

/-- A parsed `learning_state.json` document. -/
structure StateDoc where
  mastery : Option MasteryDoc
  known_recipes : Option (Dict String RecipeInfo)
  ingredient_relationships : Option (Dict String (List String))
  technique_proficiency : Option (Dict String ℚ)
  flavor_combinations : Option (Dict String (Dict String ℚ))
  innovation_attempts : Option (List String)
  feedback_history : Option (List String)

/-- `{CulinaryMastery.SkillCategory(k): v for k, v in ...}`: the comprehension
is evaluated wholly before the assignment; `SkillCategory(k)` raises
`ValueError` for a key that is not one of the eight value strings (modelled
`none`, nothing assigned).  The surviving dict is kept keyed by the value
strings (the enum members are in bijection with them). -/
def parseCategories (d : Dict String ℚ) : Option (Dict String ℚ) :=
  if d.all (fun p => p.1 ∈ categoryNames) then some d else none

/-- `LearningSystem.load_state`, for an already-parsed snapshot (`none` =
the file could not be opened or `json.load` failed).  Returns the state after
the call and whether the `except` branch ran (i.e. a diagnostic was printed).
The restore assigns field by field inside one `try`; the first failing access
aborts the rest but keeps every assignment already made.  Note
`set(state["mastery"]["successful_innovations"])` raises `TypeError` whenever
the list is non-empty, because JSON yields unhashable lists as elements. -/
def loadState (st : LearningSystem) (doc : Option StateDoc) : LearningSystem × Bool :=
  match doc with
  | none => (st, true)
  | some d =>
    match d.mastery with
    | none => (st, true)
    | some md =>
      match md.categories with
      | none => (st, true)
      | some catsRaw =>
        match parseCategories catsRaw with
        | none => (st, true)
        | some cats =>
          let st1 := { st with mastery := { st.mastery with categories := cats } }
          match md.learning_history with
          | none => (st1, true)
          | some lh =>
            let st2 := { st1 with mastery := { st1.mastery with learning_history := lh } }
            match md.successful_innovations with
            | none => (st2, true)
            | some [] =>
              let st3 := { st2 with mastery := { st2.mastery with successful_innovations := ∅ } }
              match d.known_recipes with
              | none => (st3, true)
              | some kr =>
                let st4 := { st3 with
                  known_recipes := kr.map (fun p => (RKey.strKey p.1, p.2)) }
                match d.ingredient_relationships with
                | none => (st4, true)
                | some ir =>
                  let st5 := { st4 with ingredient_relationships := ir }
                  match d.technique_proficiency with
                  | none => (st5, true)
                  | some tp =>
                    let st6 := { st5 with technique_proficiency := tp }
                    match d.flavor_combinations with
                    | none => (st6, true)
                    | some fcs =>
                      let st7 := { st6 with flavor_combinations := fcs }
                      match d.innovation_attempts with
                      | none => (st7, true)
                      | some ia =>
                        let st8 := { st7 with innovation_attempts := ia }
                        match d.feedback_history with
                        | none => (st8, true)
                        | some fh => ({ st8 with feedback_history := fh }, false)
            | some (_ :: _) => (st2, true)

/-! ### Derived definitions and concrete scenario states used by the claims -/

/-- `CulinaryMastery.calculate_overall_mastery`:
`sum(self.categories.values()) / len(self.categories)`. -/
def calculateOverallMastery (m : CulinaryMastery) : ℚ :=
  (m.categories.map (·.2)).sum / (m.categories.length : ℚ)

/-- The value the mastery dict holds for a category (absent read as 0; in
every reachable state all eight keys are present). -/
def masteryValue (cats : Dict String ℚ) (c : SkillCategory) : ℚ :=
  (dget cats c.value).getD 0

/-- `n`-fold application of the Bayesian blend
`(s, c) ↦ ((s * c + rating) / (c + 1), c + 1)` to one matrix cell. -/
def bayesIter (r : ℚ) : ℕ → ℚ × ℚ → ℚ × ℚ
  | 0, sc => sc
  | n + 1, sc => bayesIter r n ((sc.1 * sc.2 + r) / (sc.2 + 1), sc.2 + 1)

/-- The feedback event used by the novelty scenario (spec §8):
ingredients `{"egg", "onion"}`, techniques `{"saute"}`. -/
def eggOnionRecipe : Recipe := mkFeedbackRecipe ["egg", "onion"] ["saute"]

/-- First call of the novelty scenario, with rating 0 (a rating of 1 would
already raise before returning, see claim C2). -/
def c1FirstCall : LearningSystem × Except String (Dict String ℚ) :=
  evaluateRecipeSuccess initLearningSystem eggOnionRecipe 0

/-- Second, identical call of the novelty scenario. -/
def c1SecondCall : LearningSystem × Except String (Dict String ℚ) :=
  evaluateRecipeSuccess c1FirstCall.1 eggOnionRecipe 0

/-- The string key under which the egg/onion/saute combination is stored. -/
def eggOnionKey : RKey :=
  RKey.strKey (strOfCombination
    (["egg", "onion"] : List String).toFinset (["saute"] : List String).toFinset)

/-- A promotion event: rating 0.9 with ten techniques (ten techniques are
`>= level / 10` at every level in `[0, 100]`). -/
def promoEvent : RecipeData :=
  ⟨some (9/10), some ["t1", "t2", "t3", "t4", "t5", "t6", "t7", "t8", "t9", "t10"], none⟩

/-- A demotion event: rating 0.2. -/
def lowEvent : RecipeData := ⟨some (2/10), some [], none⟩

/-- A `ComplexityManager` sitting at level 50. -/
def cm50 : ComplexityManager := ⟨50, []⟩

/-- State of the learning system after the three flavor-pair updates of the
spec §8 scenario: `{"lemon","chicken"}`, `{"chicken","garlic"}`,
`{"garlic","onion"}`, each with rating 1. -/
def scenarioState : LearningSystem :=
  (evaluateRecipeSuccess
    ((evaluateRecipeSuccess
      ((evaluateRecipeSuccess initLearningSystem
        (mkFeedbackRecipe ["lemon", "chicken"] []) 1).1)
      (mkFeedbackRecipe ["chicken", "garlic"] []) 1).1)
    (mkFeedbackRecipe ["garlic", "onion"] []) 1).1

def scenarioFlavor : Dict String (Dict String ℚ) := scenarioState.flavor_combinations

/-- The transitive proposal the scenario must produce. -/
def lemonGarlicExperiment : Experiment :=
  ⟨["lemon", "garlic"], "Based on mutual success with chicken", 1/10⟩

/-- A snapshot document whose mastery categories are all present and valid
(`technique_mastery` set to 0.5) but whose `learning_history` key is missing:
the restore assigns the categories, then raises `KeyError`. -/
def catsX : Dict String ℚ :=
  [("technique_mastery", 1/2), ("flavor_pairing", 0), ("timing_control", 0),
   ("ingredient_knowledge", 0), ("recipe_complexity", 0),
   ("seasoning_expertise", 0), ("temperature_control", 0), ("presentation", 0)]

def docX : StateDoc := ⟨some ⟨some catsX, none, none⟩, none, none, none, none, none, none⟩

/-- The state `load_state` leaves behind on `docX`: the categories were
assigned, everything else still holds its prior (default) value. -/
def stX : LearningSystem :=
  { initLearningSystem with mastery := { initMastery with categories := catsX } }

/-- The changes dict returned by both novelty-scenario calls: the novelty
bonus 0.1 lands on `recipe_complexity` both times. -/
def ch1X : Dict String ℚ :=
  [("technique_mastery", 0), ("flavor_pairing", 0), ("timing_control", 0),
   ("ingredient_knowledge", 0), ("recipe_complexity", 1/10),
   ("seasoning_expertise", 0), ("temperature_control", 0), ("presentation", 0)]

/-- State after the first egg/onion/saute call with rating 0: the combination
is recorded under its string key with `times_attempted = 1`, the flavor cells
hold -0.5, and the mastery categories are unchanged (the negative deltas
clamp at 0). -/
def st1X : LearningSystem :=
  { initLearningSystem with
    known_recipes := [(eggOnionKey, ⟨1⟩)],
    flavor_combinations := [("egg", [("onion", -(1/2))]), ("onion", [("egg", -(1/2))])] }

/-- State after the second, identical call: the flavor cells accumulate to
-1, while the `known_recipes` record is overwritten with a fresh
`times_attempted = 1` (the novelty test matched nothing, again). -/
def st2X : LearningSystem :=
  { initLearningSystem with
    known_recipes := [(eggOnionKey, ⟨1⟩)],
    flavor_combinations := [("egg", [("onion", -1)]), ("onion", [("egg", -1)])] }

/-! ### Generic dictionary lemmas -/

theorem mem_of_dget_eq_some {K V : Type} [DecidableEq K] (d : Dict K V) (k : K) (v : V)
    (h : dget d k = some v) : (k, v) ∈ d := by
  induction d with
  | nil => simp [dget] at h
  | cons p rest ih =>
    obtain ⟨pk, pv⟩ := p
    by_cases h1 : pk = k
    · subst h1
      simp [dget] at h
      simp [h]
    · simp [dget, h1] at h
      simp [ih h]

theorem mem_dkeys_of_dget_eq_some {K V : Type} [DecidableEq K] (d : Dict K V) (k : K) (v : V)
    (h : dget d k = some v) : k ∈ dkeys d := by
  have := mem_of_dget_eq_some d k v h
  exact List.mem_map.mpr ⟨(k, v), this, rfl⟩

theorem dget_isSome_of_mem_dkeys {K V : Type} [DecidableEq K] (d : Dict K V) (k : K)
    (h : k ∈ dkeys d) : (dget d k).isSome := by
  induction d with
  | nil => simp [dkeys] at h
  | cons p rest ih =>
    obtain ⟨pk, pv⟩ := p
    by_cases h1 : pk = k
    · simp [dget, h1]
    · simp [dkeys, h1] at h
      rcases h with h | h
      · exact absurd h.symm h1
      · have hh : k ∈ dkeys rest := by simpa [dkeys] using h
        simpa [dget, h1] using ih hh

/-! ### Claim C8 -/

/-- Claim C8: a technique-sequence update whose success rating does not
exceed 0.7 leaves the `RecipeLearner` state (technique graph and difficulty
estimates) entirely unchanged; mutation happens only when the rating is
above 0.7. -/
theorem technique_gate_below_threshold :
    ∀ (rl : RecipeLearner) (techniques : List String) (r : ℚ),
      r ≤ 7/10 → learnTechniqueSequence rl techniques r = rl := by
  intro rl t r h
  simp [learnTechniqueSequence, not_lt.mpr h]

/-- Witness for C8 at rating 0.5 (the example rating of the claim). -/
theorem technique_gate_below_threshold_witness :
    (1 : ℚ)/2 ≤ 7/10 ∧
    learnTechniqueSequence initRecipeLearner ["saute", "sear"] (1/2) = initRecipeLearner :=
  ⟨by norm_num,
   technique_gate_below_threshold initRecipeLearner ["saute", "sear"] (1/2) (by norm_num)⟩

/-! ### Claim C6 -/

theorem updateComplexity_bounds (cm : ComplexityManager) (rd : RecipeData)
    (h0 : 0 ≤ cm.current_level) (h1 : cm.current_level ≤ 100) :
    0 ≤ (updateComplexity cm rd).current_level ∧
    (updateComplexity cm rd).current_level ≤ 100 := by
  simp only [updateComplexity]
  split
  · constructor <;> omega
  · split
    · constructor <;> omega
    · exact ⟨h0, h1⟩

theorem applyComplexityUpdates_bounds (rds : List RecipeData) :
    ∀ cm : ComplexityManager, 0 ≤ cm.current_level → cm.current_level ≤ 100 →
      0 ≤ (applyComplexityUpdates cm rds).current_level ∧
      (applyComplexityUpdates cm rds).current_level ≤ 100 := by
  induction rds with
  | nil => intro cm h0 h1; exact ⟨h0, h1⟩
  | cons rd rest ih =>
    intro cm h0 h1
    have h := updateComplexity_bounds cm rd h0 h1
    exact ih _ h.1 h.2

theorem updateComplexity_promo (cm : ComplexityManager) (h1 : cm.current_level ≤ 100) :
    (updateComplexity cm promoEvent).current_level = min 100 (cm.current_level + 5) := by
  simp only [updateComplexity, promoEvent]
  rw [if_pos]
  refine ⟨by norm_num, ?_⟩
  have hc : (cm.current_level : ℚ) ≤ 100 := by exact_mod_cast h1
  norm_num
  linarith

theorem promo_level (N : ℕ) :
    ∀ cm : ComplexityManager, 0 ≤ cm.current_level → cm.current_level ≤ 100 →
      (applyComplexityUpdates cm (List.replicate N promoEvent)).current_level
        = min 100 (cm.current_level + 5 * N) := by
  induction N with
  | zero =>
    intro cm h0 h1
    simp only [List.replicate, applyComplexityUpdates, List.foldl_nil]
    omega
  | succ n ih =>
    intro cm h0 h1
    rw [List.replicate_succ]
    have hstep := updateComplexity_promo cm h1
    have hb := updateComplexity_bounds cm promoEvent h0 h1
    have := ih (updateComplexity cm promoEvent) hb.1 hb.2
    show (applyComplexityUpdates (updateComplexity cm promoEvent)
      (List.replicate n promoEvent)).current_level = _
    rw [this, hstep]
    push_cast
    omega

theorem updateComplexity_demo (cm : ComplexityManager) :
    (updateComplexity cm lowEvent).current_level = max 0 (cm.current_level - 2) := by
  simp only [updateComplexity, lowEvent]
  rw [if_neg, if_pos]
  · norm_num
  · rintro ⟨h, -⟩
    norm_num at h

theorem demo_level (N : ℕ) :
    ∀ cm : ComplexityManager, 0 ≤ cm.current_level →
      (applyComplexityUpdates cm (List.replicate N lowEvent)).current_level
        = max 0 (cm.current_level - 2 * N) := by
  induction N with
  | zero =>
    intro cm h0
    simp only [List.replicate, applyComplexityUpdates, List.foldl_nil]
    omega
  | succ n ih =>
    intro cm h0
    rw [List.replicate_succ]
    have hd := updateComplexity_demo cm
    have := ih (updateComplexity cm lowEvent) (by rw [hd]; omega)
    show (applyComplexityUpdates (updateComplexity cm lowEvent)
      (List.replicate n lowEvent)).current_level = _
    rw [this, hd]
    push_cast
    omega

/-- Claim C6: the complexity level rules.  (i) rating above 0.8 with enough
techniques promotes by 5 capped at 100; (ii) rating below 0.3 demotes by 2
floored at 0; (iii) ratings in [0.3, 0.8] never change the level; (iv) the
level stays in [0, 100] over every update sequence from the initial state;
(v) N promotion events (rating 0.9, ten techniques) from level 0 reach
min(100, 5N); (vi) N demotion events (rating 0.2) from level 50 reach
max(0, 50 - 2N), never below 0. -/
theorem complexity_level_rules :
    (∀ (cm : ComplexityManager) (rd : RecipeData),
      rd.rating.getD 0 > 8/10 →
      (((rd.techniques.getD []).length : ℚ)) ≥ (cm.current_level : ℚ) / 10 →
      (updateComplexity cm rd).current_level = min 100 (cm.current_level + 5)) ∧
    (∀ (cm : ComplexityManager) (rd : RecipeData),
      rd.rating.getD 0 < 3/10 →
      (updateComplexity cm rd).current_level = max 0 (cm.current_level - 2)) ∧
    (∀ (cm : ComplexityManager) (rd : RecipeData),
      3/10 ≤ rd.rating.getD 0 → rd.rating.getD 0 ≤ 8/10 →
      (updateComplexity cm rd).current_level = cm.current_level) ∧
    (∀ rds : List RecipeData,
      0 ≤ (applyComplexityUpdates initComplexityManager rds).current_level ∧
      (applyComplexityUpdates initComplexityManager rds).current_level ≤ 100) ∧
    (∀ N : ℕ,
      (applyComplexityUpdates initComplexityManager
        (List.replicate N promoEvent)).current_level = min 100 (5 * N)) ∧
    (∀ N : ℕ,
      (applyComplexityUpdates cm50 (List.replicate N lowEvent)).current_level
        = max 0 (50 - 2 * (N : ℤ))) := by
  refine ⟨?_, ?_, ?_, ?_, ?_, ?_⟩
  · intro cm rd h1 h2
    simp only [updateComplexity]
    rw [if_pos ⟨h1, h2⟩]
  · intro cm rd h1
    simp only [updateComplexity]
    rw [if_neg, if_pos h1]
    rintro ⟨h2, -⟩
    linarith
  · intro cm rd h1 h2
    simp only [updateComplexity]
    rw [if_neg, if_neg]
    · linarith
    · rintro ⟨h3, -⟩
      linarith
  · intro rds
    exact applyComplexityUpdates_bounds rds initComplexityManager
      (by norm_num [initComplexityManager]) (by norm_num [initComplexityManager])
  · intro N
    have := promo_level N initComplexityManager
      (by norm_num [initComplexityManager]) (by norm_num [initComplexityManager])
    simpa [initComplexityManager] using this
  · intro N
    have := demo_level N cm50 (by norm_num [cm50])
    simpa [cm50] using this

/-- Witness for C6, discharging the hypotheses of the three transition rules
at concrete inputs. -/
theorem complexity_level_rules_witness :
    (updateComplexity ⟨0, []⟩ promoEvent).current_level = min 100 (0 + 5) ∧
    (updateComplexity cm50 lowEvent).current_level = max 0 (50 - 2) ∧
    (updateComplexity cm50 ⟨some (1/2), some [], none⟩).current_level = cm50.current_level :=
  ⟨complexity_level_rules.1 ⟨0, []⟩ promoEvent (by norm_num [promoEvent])
      (by norm_num [promoEvent]),
   complexity_level_rules.2.1 cm50 lowEvent (by norm_num [lowEvent]),
   complexity_level_rules.2.2.1 cm50 ⟨some (1/2), some [], none⟩ (by norm_num) (by norm_num)⟩

/-! ### Claim C9 -/

theorem loadState_docX_eq : loadState initLearningSystem (some docX) = (stX, true) := by
  norm_num [loadState, docX, parseCategories, catsX, categoryNames, allCategories,
    SkillCategory.value, stX, initLearningSystem, initMastery]

/-- Counterexample to C9 as stated: a snapshot whose mastery categories are
valid (with `technique_mastery = 0.5`) but whose `learning_history` key is
missing fails to load (the diagnostic branch runs), yet the engine is NOT
left in the default initial state: the categories assigned before the
`KeyError` survive. -/
theorem load_partial_restore_counterexample :
    (loadState initLearningSystem (some docX)).2 = true ∧
    dget (loadState initLearningSystem (some docX)).1.mastery.categories
      "technique_mastery" = some (1/2) ∧
    dget initLearningSystem.mastery.categories "technique_mastery" = some 0 ∧
    (loadState initLearningSystem (some docX)).1 ≠ initLearningSystem := by
  rw [loadState_docX_eq]
  refine ⟨rfl, ?_, ?_, ?_⟩
  · norm_num [stX, catsX, dget]
  · norm_num [initLearningSystem, initMastery, allCategories, SkillCategory.value, dget]
  · intro h
    have h2 := congrArg (fun st => dget st.mastery.categories "technique_mastery") h
    norm_num [stX, catsX, initLearningSystem, initMastery, allCategories,
      SkillCategory.value, dget] at h2

/-- Claim C9 (amended): a failed load is non-fatal and a diagnostic is
recorded; when the file is unreadable or unparseable the state is left
untouched (the default state when loading at startup), but a snapshot failing
partway through restoration keeps the fields assigned before the failure
point instead of reverting to the default state. -/
theorem load_failure_nonfatal :
    (∀ st : LearningSystem, loadState st none = (st, true)) ∧
    (loadState initLearningSystem (some docX)).2 = true :=
  ⟨fun _ => rfl, by rw [loadState_docX_eq]⟩

/-! ### Claims C1 and C2 -/

theorem dset_same {K V : Type} [DecidableEq K] (d : Dict K V) (k : K) (v : V)
    (h : dget d k = some v) : dset d k v = d := by
  induction d with
  | nil => simp [dget] at h
  | cons p rest ih =>
    obtain ⟨pk, pv⟩ := p
    by_cases h1 : pk = k
    · subst h1
      simp [dget] at h
      simp [dset, h]
    · simp [dget, h1] at h
      simp [dset, h1, ih h]

/-- When every category currently sits at 0, the rating is not 1 (so the
feedback multiplier is -0.5) and every raw delta is non-negative, the
mastery loop writes back exactly the clamped value 0 everywhere: the
categories dict comes out unchanged and no `KeyError` occurs. -/
theorem masteryGo_noop (changes : Dict String ℚ) (complexity rating : ℚ)
    (hr : rating ≠ 1) (hc : 0 ≤ complexity) :
    ∀ (cs : List SkillCategory) (cats : Dict String ℚ),
      (∀ c ∈ cs, dget cats c.value = some 0) →
      (∀ c ∈ cs, ∃ v, dget changes c.value = some v ∧ 0 ≤ v) →
      masteryGo changes complexity rating cs cats = (cats, none) := by
  intro cs
  induction cs with
  | nil => intro cats _ _; rfl
  | cons c rest ih =>
    intro cats hcats hch
    obtain ⟨v, hv, hv0⟩ := hch c (List.mem_cons_self c rest)
    have hcur := hcats c (List.mem_cons_self c rest)
    simp only [masteryGo, hcur, hv]
    have hmul : feedbackMultiplier rating = -(1/2) := by
      simp [feedbackMultiplier, hr]
    have hchange : v * complexity * feedbackMultiplier rating * ((1:ℚ)/10 * (1 - 0)) ≤ 0 := by
      rw [hmul]
      have h1 : 0 ≤ v * complexity := mul_nonneg hv0 hc
      nlinarith
    have hclamp : max 0 (min 1 (0 + v * complexity * feedbackMultiplier rating * ((1:ℚ)/10 * (1 - 0)))) = 0 := by
      rw [zero_add, min_eq_right (by linarith), max_eq_left hchange]
    rw [hclamp, dset_same cats c.value 0 hcur]
    exact ih cats (fun c2 h2 => hcats c2 (List.mem_cons_of_mem c h2))
      (fun c2 h2 => hch c2 (List.mem_cons_of_mem c h2))

theorem calc_eggOnion :
    calcComplexity (mkFeedbackRecipe ["egg", "onion"] ["saute"]) = Except.ok (1/10) := by
  simp only [calcComplexity, mkFeedbackRecipe, totalTimeMinutes, List.map, List.foldl,
    List.length]
  norm_num [min_def]

theorem mkFeedbackRecipe_ingredients (l t : List String) :
    (mkFeedbackRecipe l t).ingredients = l.map Ingredient.mk := rfl

theorem mkFeedbackRecipe_techniques (l t : List String) :
    (mkFeedbackRecipe l t).techniques = t := rfl

theorem mkFeedbackRecipe_steps (l t : List String) :
    (mkFeedbackRecipe l t).steps = [] := rfl

theorem ums_c1 :
    updateMasteryLevels
      [("technique_mastery", 0), ("flavor_pairing", 0), ("timing_control", 0),
       ("ingredient_knowledge", 0), ("recipe_complexity", 0),
       ("seasoning_expertise", 0), ("temperature_control", 0), ("presentation", 0)]
      [("technique_mastery", 0), ("flavor_pairing", 0), ("timing_control", 0),
       ("ingredient_knowledge", 0), ("recipe_complexity", 1/10),
       ("seasoning_expertise", 0), ("temperature_control", 0), ("presentation", 0)]
      (1/10) 0 =
      ([("technique_mastery", 0), ("flavor_pairing", 0), ("timing_control", 0),
        ("ingredient_knowledge", 0), ("recipe_complexity", 0),
        ("seasoning_expertise", 0), ("temperature_control", 0), ("presentation", 0)], none) := by
  apply masteryGo_noop _ (1/10) 0 (by norm_num) (by norm_num) allCategories
  · intro c hc
    fin_cases hc <;> simp [SkillCategory.value, dget]
  · intro c hc
    fin_cases hc
    · exact ⟨0, by simp [dget, SkillCategory.value], le_refl 0⟩
    · exact ⟨0, by simp [dget, SkillCategory.value], le_refl 0⟩
    · exact ⟨0, by simp [dget, SkillCategory.value], le_refl 0⟩
    · exact ⟨0, by simp [dget, SkillCategory.value], le_refl 0⟩
    · exact ⟨1/10, by simp [dget, SkillCategory.value], by norm_num⟩
    · exact ⟨0, by simp [dget, SkillCategory.value], le_refl 0⟩
    · exact ⟨0, by simp [dget, SkillCategory.value], le_refl 0⟩
    · exact ⟨0, by simp [dget, SkillCategory.value], le_refl 0⟩

set_option maxHeartbeats 2000000 in
theorem c1FirstCall_eq : c1FirstCall = (st1X, Except.ok ch1X) := by
  simp [c1FirstCall, eggOnionRecipe, evaluateRecipeSuccess, calc_eggOnion,
    mkFeedbackRecipe_ingredients, mkFeedbackRecipe_techniques, mkFeedbackRecipe_steps,
    techniqueLoop, techniqueStep, initChanges, allCategories,
    SkillCategory.value, flavorFold, pairsOf, updateFlavorPairing, fcEnsureRow,
    fcEnsureCell, fcAdd, fcRow, fcVal, flavorChange, isNovelCombination,
    initLearningSystem, dget, dset, dAdd, dkeys, finishEvaluate, ums_c1]
  norm_num [ums_c1, st1X, ch1X, initLearningSystem, initMastery, eggOnionKey,
    allCategories, SkillCategory.value]

set_option maxHeartbeats 2000000 in
theorem c1SecondCall_eq : c1SecondCall = (st2X, Except.ok ch1X) := by
  have h : c1SecondCall = evaluateRecipeSuccess st1X eggOnionRecipe 0 := by
    show evaluateRecipeSuccess c1FirstCall.1 eggOnionRecipe 0 = _
    rw [c1FirstCall_eq]
  rw [h]
  simp [eggOnionRecipe, evaluateRecipeSuccess, calc_eggOnion,
    mkFeedbackRecipe_ingredients, mkFeedbackRecipe_techniques, mkFeedbackRecipe_steps,
    techniqueLoop, techniqueStep, initChanges, allCategories,
    SkillCategory.value, flavorFold, pairsOf, updateFlavorPairing, fcEnsureRow,
    fcEnsureCell, fcAdd, fcRow, fcVal, flavorChange, isNovelCombination,
    st1X, initLearningSystem, dget, dset, dAdd, dkeys, finishEvaluate, eggOnionKey, ums_c1]
  norm_num [ums_c1, st2X, ch1X, initLearningSystem, initMastery,
    allCategories, SkillCategory.value, eggOnionKey]

/-- Claim C1 (code-bug evidence): the novelty membership test compares the
`(frozenset, frozenset)` tuple against a dict whose keys are all strings, so
it never matches: the second identical call is again classified novel (the
0.1 `recipe_complexity` bonus appears in the changes of BOTH calls) and the
combination record is re-inserted with `times_attempted = 1`, never reaching
2. -/
theorem novelty_bonus_retriggers :
    c1FirstCall = (st1X, Except.ok ch1X) ∧
    c1SecondCall = (st2X, Except.ok ch1X) ∧
    dget ch1X "recipe_complexity" = some (1/10) ∧
    dget st2X.known_recipes eggOnionKey = some ⟨1⟩ :=
  ⟨c1FirstCall_eq, c1SecondCall_eq, by simp [ch1X, dget], by simp [st2X, dget]⟩

/-- Claim C2 (code-bug evidence): a feedback event with rating 1 never
completes: `_is_novel_combination` always reports novel (see C1), so line 70
reads `self.successful_innovations`, an attribute `LearningSystem.__init__`
never creates, and the call raises `AttributeError` instead of returning the
mastery deltas. -/
theorem evaluate_rating_one_attribute_error :
    (evaluateRecipeSuccess initLearningSystem (mkFeedbackRecipe ["egg"] ["saute"]) 1).2
      = Except.error attrErrorMsg := by
  norm_num [evaluateRecipeSuccess, calcComplexity, totalTimeMinutes, mkFeedbackRecipe,
    techniqueLoop, techniqueStep, initChanges, allCategories, SkillCategory.value,
    flavorFold, pairsOf, updateFlavorPairing, fcEnsureRow, fcEnsureCell, fcAdd, fcRow, fcVal,
    flavorChange, isNovelCombination, initLearningSystem, initMastery,
    dget, dset, dAdd, dkeys]

/-! ### Flavor-accumulator cell arithmetic (claims C3 and C10) -/

theorem fcRow_dset (fc : Dict String (Dict String ℚ)) (k : String) (row : Dict String ℚ)
    (a : String) : fcRow (dset fc k row) a = if a = k then row else fcRow fc a := by
  unfold fcRow
  rw [dget_dset]
  split <;> rfl

theorem fcVal_fcEnsureRow (fc : Dict String (Dict String ℚ)) (k a b : String) :
    fcVal (fcEnsureRow fc k) a b = fcVal fc a b := by
  unfold fcEnsureRow
  split
  · rfl
  · rename_i h
    rw [Option.not_isSome_iff_eq_none] at h
    unfold fcVal
    rw [fcRow_dset]
    split
    · rename_i ha
      subst ha
      unfold fcRow
      rw [h]
      rfl
    · rfl

theorem fcVal_fcEnsureCell (fc : Dict String (Dict String ℚ)) (x y a b : String) :
    fcVal (fcEnsureCell fc x y) a b = fcVal fc a b := by
  unfold fcEnsureCell
  split
  · rfl
  · rename_i h
    rw [Option.not_isSome_iff_eq_none] at h
    unfold fcVal
    rw [fcRow_dset]
    split
    · rename_i ha
      subst ha
      rw [dget_dset]
      split
      · rename_i hb
        subst hb
        rw [h]
        rfl
      · rfl
    · rfl

theorem fcVal_dset_row (fc : Dict String (Dict String ℚ)) (k : String)
    (row : Dict String ℚ) (a b : String) :
    fcVal (dset fc k row) a b = if a = k then (dget row b).getD 0 else fcVal fc a b := by
  unfold fcVal
  rw [fcRow_dset]
  split <;> rfl

theorem fcVal_fcAdd (fc : Dict String (Dict String ℚ)) (x y : String) (q : ℚ) (a b : String) :
    fcVal (fcAdd fc x y q) a b =
      if a = x ∧ b = y then fcVal fc a b + q else fcVal fc a b := by
  unfold fcAdd
  rw [fcVal_dset_row]
  by_cases hx : a = x
  · subst hx
    rw [if_pos rfl, dget_dset]
    by_cases hy : b = y
    · subst hy
      rw [if_pos rfl]
      simp [fcVal]
    · rw [if_neg hy]
      simp [hy, fcVal]
  · rw [if_neg hx]
    simp [hx]

/-- The change one `_update_flavor_pairing(x, y, r)` call makes to the cell
`(a, b)`: `change` once for each of the two `+=` lines that hits `(a, b)`
(both hit it when `x = y = a = b`). -/
theorem fcVal_updateFlavorPairing (fc : Dict String (Dict String ℚ)) (x y : String)
    (r : ℚ) (a b : String) :
    fcVal (updateFlavorPairing fc x y r) a b =
      fcVal fc a b + (if (x, y) = (a, b) then flavorChange r else 0)
        + (if (y, x) = (a, b) then flavorChange r else 0) := by
  unfold updateFlavorPairing
  rw [fcVal_fcAdd, fcVal_fcAdd, fcVal_fcEnsureCell, fcVal_fcEnsureCell,
    fcVal_fcEnsureRow, fcVal_fcEnsureRow]
  by_cases hax : a = x <;> by_cases hby : b = y <;>
    by_cases hay : a = y <;> by_cases hbx : b = x <;>
    simp_all [Prod.ext_iff, eq_comm]

/-- Folding `_update_flavor_pairing` over a pair list changes the cell
`(a, b)` by `change` times the total number of writes hitting it. -/
theorem fcVal_flavorFold (r : ℚ) (a b : String) :
    ∀ (ps : List (String × String)) (fc : Dict String (Dict String ℚ)),
      fcVal (flavorFold fc ps r) a b =
        fcVal fc a b +
          flavorChange r * ((ps.count (a, b) : ℚ) + (ps.count (b, a) : ℚ)) := by
  intro ps
  induction ps with
  | nil => intro fc; simp [flavorFold]
  | cons p rest ih =>
    intro fc
    have hfold : flavorFold fc (p :: rest) r
        = flavorFold (updateFlavorPairing fc p.1 p.2 r) rest r := rfl
    obtain ⟨p1, p2⟩ := p
    rw [hfold, ih, fcVal_updateFlavorPairing, List.count_cons, List.count_cons]
    simp only [beq_iff_eq, Prod.mk.injEq]
    by_cases hab : a = b
    · subst hab
      by_cases hp1 : p1 = a <;> by_cases hp2 : p2 = a <;>
        simp [hp1, hp2] <;> push_cast <;> try ring
    · by_cases hp1 : p1 = a <;> by_cases hp2 : p2 = b <;>
        by_cases hq1 : p1 = b <;> by_cases hq2 : p2 = a <;>
        simp [hp1, hp2, hq1, hq2, hab, Ne.symm hab] <;> push_cast <;> try ring

theorem mem_pairsOf (p : String × String) :
    ∀ l : List String, p ∈ pairsOf l → p.1 ∈ l ∧ p.2 ∈ l := by
  intro l
  induction l with
  | nil => simp [pairsOf]
  | cons x xs ih =>
    intro h
    simp only [pairsOf, List.mem_append, List.mem_map] at h
    rcases h with ⟨y, hy, hp⟩ | h
    · subst hp
      exact ⟨List.mem_cons_self x xs, List.mem_cons_of_mem x hy⟩
    · obtain ⟨h1, h2⟩ := ih h
      exact ⟨List.mem_cons_of_mem x h1, List.mem_cons_of_mem x h2⟩

theorem count_map_pair (x a b : String) :
    ∀ xs : List String,
      (xs.map (fun y => (x, y))).count (a, b) = if x = a then xs.count b else 0 := by
  intro xs
  induction xs with
  | nil => simp
  | cons z zs ih =>
    by_cases hx : x = a
    · subst hx
      by_cases hz : z = b
      · subst hz
        simp [List.count_cons, ih, beq_iff_eq, Prod.mk.injEq]
      · simp [List.count_cons, ih, beq_iff_eq, Prod.mk.injEq, hz, Ne.symm hz]
    · have hx2 : ¬(a = x) := fun h => hx h.symm
      simp [List.count_cons, ih, beq_iff_eq, Prod.mk.injEq, hx, hx2]

theorem count_pairsOf_eq_zero (a b : String) (l : List String) (ha : a ∉ l) :
    (pairsOf l).count (a, b) = 0 ∧ (pairsOf l).count (b, a) = 0 := by
  constructor <;>
    · apply List.count_eq_zero.mpr
      intro hmem
      have := mem_pairsOf _ l hmem
      simp at this
      exact ha (by tauto)

/-- Over a duplicate-free ingredient list, the two directed position-pair
counts for a pair of distinct names sum to 1 exactly when both names occur. -/
theorem count_pairsOf_nodup (a b : String) (hab : a ≠ b) :
    ∀ l : List String, l.Nodup →
      (pairsOf l).count (a, b) + (pairsOf l).count (b, a)
        = if a ∈ l ∧ b ∈ l then 1 else 0 := by
  intro l
  induction l with
  | nil => simp [pairsOf]
  | cons x xs ih =>
    intro hnd
    have hx : x ∉ xs := (List.nodup_cons.mp hnd).1
    have hxs : xs.Nodup := (List.nodup_cons.mp hnd).2
    have hih := ih hxs
    simp only [pairsOf, List.count_append, count_map_pair]
    by_cases hxa : x = a
    · have hxb : ¬(x = b) := fun h => hab (hxa.symm.trans h)
      have haxs : a ∉ xs := fun h => hx (by rw [hxa]; exact h)
      have hz1 := (count_pairsOf_eq_zero a b xs haxs).1
      have hz2 := (count_pairsOf_eq_zero a b xs haxs).2
      rw [hz1, hz2, if_pos hxa, if_neg hxb]
      by_cases hbxs : b ∈ xs
      · rw [List.count_eq_one_of_mem hxs hbxs, if_pos]
        exact ⟨by simp [hxa], by simp [hbxs]⟩
      · rw [List.count_eq_zero_of_not_mem hbxs, if_neg]
        rintro ⟨-, hb⟩
        rcases List.mem_cons.mp hb with h | h
        · exact hxb h.symm
        · exact hbxs h
    · by_cases hxb : x = b
      · have hbxs : b ∉ xs := fun h => hx (by rw [hxb]; exact h)
        have hz1 := (count_pairsOf_eq_zero b a xs hbxs).1
        have hz2 := (count_pairsOf_eq_zero b a xs hbxs).2
        rw [hz1, hz2, if_neg hxa, if_pos hxb]
        by_cases haxs : a ∈ xs
        · rw [List.count_eq_one_of_mem hxs haxs, if_pos]
          exact ⟨by simp [haxs], by simp [hxb]⟩
        · rw [List.count_eq_zero_of_not_mem haxs, if_neg]
          rintro ⟨ha, -⟩
          rcases List.mem_cons.mp ha with h | h
          · exact hxa h.symm
          · exact haxs h
      · rw [if_neg hxa, if_neg hxb, Nat.zero_add, Nat.zero_add, hih]
        have hma : (a ∈ x :: xs) ↔ a ∈ xs := by
          rw [List.mem_cons]
          exact or_iff_right (fun h => hxa h.symm)
        have hmb : (b ∈ x :: xs) ↔ b ∈ xs := by
          rw [List.mem_cons]
          exact or_iff_right (fun h => hxb h.symm)
        simp only [hma, hmb]
theorem count_pairsOf_self (x : String) :
    ∀ l : List String, (pairsOf l).count (x, x) = Nat.choose (l.count x) 2 := by
  intro l
  induction l with
  | nil => simp [pairsOf]
  | cons z zs ih =>
    simp only [pairsOf, List.count_append, count_map_pair, ih, List.count_cons]
    by_cases hz : z = x
    · subst hz
      simp [Nat.choose_succ_succ, Nat.choose_one_right, Nat.add_comm]
    · simp [hz, Ne.symm hz, beq_iff_eq]

/-- `_is_novel_combination` only ever mutates `known_recipes`. -/
theorem isNovelCombination_fields (st : LearningSystem) (r : Recipe)
    (x : Bool × LearningSystem) (h : isNovelCombination st r = some x) :
    x.2.mastery = st.mastery ∧
    x.2.flavor_combinations = st.flavor_combinations ∧
    x.2.technique_proficiency = st.technique_proficiency ∧
    x.2.successful_innovations_attr = st.successful_innovations_attr := by
  simp only [isNovelCombination] at h
  split at h
  · cases h
    exact ⟨rfl, rfl, rfl, rfl⟩
  · split at h
    · cases h
      exact ⟨rfl, rfl, rfl, rfl⟩
    · cases h

/-- `_update_mastery_levels` only ever mutates the mastery categories. -/
theorem finishEvaluate_fields (st : LearningSystem) (ch : Dict String ℚ)
    (c r : ℚ) :
    (finishEvaluate st ch c r).1.flavor_combinations = st.flavor_combinations ∧
    (finishEvaluate st ch c r).1.known_recipes = st.known_recipes ∧
    (finishEvaluate st ch c r).1.technique_proficiency = st.technique_proficiency := by
  rcases hu : updateMasteryLevels st.mastery.categories ch c r with ⟨cats, err⟩
  cases err <;> simp [finishEvaluate, hu]

/-- A feedback-endpoint recipe always passes complexity scoring (its step
list is empty), and its flavor pass is exactly the fold of
`_update_flavor_pairing` over the position pairs of the ingredient list --
whatever happens later in the call (novelty `KeyError`, the rating-1
`AttributeError`, or normal completion). -/
theorem evaluate_feedback_flavor (st : LearningSystem) (ings techs : List String) (r : ℚ) :
    (evaluateRecipeSuccess st (mkFeedbackRecipe ings techs) r).1.flavor_combinations =
      flavorFold st.flavor_combinations (pairsOf ings) r := by
  obtain ⟨q, hq⟩ : ∃ q, calcComplexity (mkFeedbackRecipe ings techs) = Except.ok q :=
    ⟨_, rfl⟩
  have hitems : (mkFeedbackRecipe ings techs).ingredients.map (fun i => i.item) = ings := by
    rw [mkFeedbackRecipe_ingredients, List.map_map]
    have hcomp : ((fun i : Ingredient => i.item) ∘ Ingredient.mk) = id := rfl
    rw [hcomp, List.map_id]
  simp only [evaluateRecipeSuccess, hq, hitems]
  generalize hnov : isNovelCombination _ _ = res
  rcases res with _ | ⟨novel, st2⟩
  · rfl
  · have hf := (isNovelCombination_fields _ _ _ hnov).2.1
    cases novel
    · simp only [Bool.false_eq_true, if_false]
      rw [(finishEvaluate_fields _ _ _ _).1]
      exact hf
    · simp only [if_true]
      by_cases hr : r = 1
      · rw [if_pos hr]
        rcases hattr : st2.successful_innovations_attr with _ | s
        · exact hf
        · rw [(finishEvaluate_fields _ _ _ _).1]
          exact hf
      · rw [if_neg hr]
        rw [(finishEvaluate_fields _ _ _ _).1]
        exact hf

/-! ### Claim C3 -/

/-- Counterexample to C3 as stated: rating 2 is greater than 0, but the
flavor accumulator for the pair (a, b) moves by -0.5, not +1, because the
code tests `rating == 1`, not `rating > 0`. -/
theorem flavor_rating_two_counterexample :
    (0 : ℚ) < 2 ∧
    fcVal (evaluateRecipeSuccess initLearningSystem
        (mkFeedbackRecipe ["a", "b"] []) 2).1.flavor_combinations "a" "b" = -(1/2) ∧
    fcVal initLearningSystem.flavor_combinations "a" "b" = 0 ∧
    -(1/2 : ℚ) ≠ 0 + 1 := by
  refine ⟨by norm_num, ?_, by simp [initLearningSystem, fcVal, fcRow, dget], by norm_num⟩
  rw [evaluate_feedback_flavor]
  simp [flavorFold, pairsOf, updateFlavorPairing, fcEnsureRow, fcEnsureCell, fcAdd,
    fcRow, fcVal, dget, dset, flavorChange, initLearningSystem]

/-- Claim C3 (amended): for a feedback event whose ingredient list has no
duplicate names, every unordered pair of distinct ingredients in it has its
flavor-pair accumulator changed by +1 when the rating EQUALS 1 and by -0.5
otherwise (the code tests `rating == 1`, not `rating > 0`), with the same
change applied to both directions of the pair. -/
theorem flavor_pair_delta (st : LearningSystem) (ings techs : List String) (r : ℚ)
    (a b : String) (hnd : ings.Nodup) (ha : a ∈ ings) (hb : b ∈ ings) (hab : a ≠ b) :
    fcVal (evaluateRecipeSuccess st (mkFeedbackRecipe ings techs) r).1.flavor_combinations a b
      = fcVal st.flavor_combinations a b + (if r = 1 then 1 else -(1/2)) ∧
    fcVal (evaluateRecipeSuccess st (mkFeedbackRecipe ings techs) r).1.flavor_combinations b a
      = fcVal st.flavor_combinations b a + (if r = 1 then 1 else -(1/2)) := by
  rw [evaluate_feedback_flavor]
  constructor
  · rw [fcVal_flavorFold]
    have hcnt := count_pairsOf_nodup a b hab ings hnd
    rw [if_pos ⟨ha, hb⟩] at hcnt
    have hq : ((pairsOf ings).count (a, b) : ℚ) + ((pairsOf ings).count (b, a) : ℚ) = 1 := by
      exact_mod_cast hcnt
    rw [hq]
    simp [flavorChange]
  · rw [fcVal_flavorFold]
    have hcnt := count_pairsOf_nodup b a (Ne.symm hab) ings hnd
    rw [if_pos ⟨hb, ha⟩] at hcnt
    have hq : ((pairsOf ings).count (b, a) : ℚ) + ((pairsOf ings).count (a, b) : ℚ) = 1 := by
      exact_mod_cast hcnt
    rw [hq]
    simp [flavorChange]

/-- Witness for C3 (amended) at a concrete event. -/
theorem flavor_pair_delta_witness :
    (["lemon", "basil"] : List String).Nodup ∧
    fcVal (evaluateRecipeSuccess initLearningSystem
        (mkFeedbackRecipe ["lemon", "basil"] []) 1).1.flavor_combinations "lemon" "basil"
      = fcVal initLearningSystem.flavor_combinations "lemon" "basil"
        + (if (1 : ℚ) = 1 then 1 else -(1/2)) :=
  ⟨by simp, (flavor_pair_delta initLearningSystem ["lemon", "basil"] [] 1 "lemon" "basil"
    (by simp) (by simp) (by simp) (by simp)).1⟩

/-! ### Claim C10 -/

/-- Claim C10: an ingredient name occurring at two distinct positions of the
event's ingredient list yields one self-pair update: the cell
`flavor_combinations[x][x]` is written by both `+=` lines of
`_update_flavor_pairing`, moving by twice the per-direction amount: +2 when
the rating is the positive-feedback rating 1, and -1 otherwise. -/
theorem self_pair_double_update (st : LearningSystem) (ings techs : List String) (r : ℚ)
    (x : String) (hx : ings.count x = 2) :
    fcVal (evaluateRecipeSuccess st (mkFeedbackRecipe ings techs) r).1.flavor_combinations x x
      = fcVal st.flavor_combinations x x + 2 * (if r = 1 then 1 else -(1/2)) := by
  rw [evaluate_feedback_flavor, fcVal_flavorFold]
  have hc := count_pairsOf_self x ings
  rw [hx] at hc
  have h1 : (pairsOf ings).count (x, x) = 1 := by rw [hc]; rfl
  rw [h1]
  simp only [flavorChange]
  push_cast
  ring

/-- Witness for C10: the event with ingredient list ["egg", "egg"] and
rating 1 moves the self-cell by +2. -/
theorem self_pair_double_update_witness :
    (["egg", "egg"] : List String).count "egg" = 2 ∧
    fcVal (evaluateRecipeSuccess initLearningSystem
        (mkFeedbackRecipe ["egg", "egg"] []) 1).1.flavor_combinations "egg" "egg"
      = fcVal initLearningSystem.flavor_combinations "egg" "egg"
        + 2 * (if (1 : ℚ) = 1 then 1 else -(1/2)) :=
  ⟨by simp, self_pair_double_update initLearningSystem ["egg", "egg"] [] 1 "egg" (by simp)⟩

/-! ### Claim C4 -/

theorem masteryGo_dkeys (changes : Dict String ℚ) (complexity rating : ℚ) :
    ∀ (cs : List SkillCategory) (cats : Dict String ℚ),
      dkeys (masteryGo changes complexity rating cs cats).1 = dkeys cats := by
  intro cs
  induction cs with
  | nil => intro cats; rfl
  | cons c rest ih =>
    intro cats
    rcases hcur : dget cats c.value with _ | cur
    · simp [masteryGo, hcur]
    · rcases hch : dget changes c.value with _ | raw
      · simp [masteryGo, hcur, hch]
      · simp only [masteryGo, hcur, hch]
        rw [ih]
        exact dkeys_dset_of_isSome cats c.value _ (by simp [hcur])

theorem masteryGo_values (changes : Dict String ℚ) (complexity rating : ℚ) :
    ∀ (cs : List SkillCategory) (cats : Dict String ℚ),
      (∀ p ∈ cats, 0 ≤ p.2 ∧ p.2 ≤ 1) →
      ∀ p ∈ (masteryGo changes complexity rating cs cats).1, 0 ≤ p.2 ∧ p.2 ≤ 1 := by
  intro cs
  induction cs with
  | nil => intro cats h; exact h
  | cons c rest ih =>
    intro cats h
    rcases hcur : dget cats c.value with _ | cur
    · simpa [masteryGo, hcur] using h
    · rcases hch : dget changes c.value with _ | raw
      · simpa [masteryGo, hcur, hch] using h
      · simp only [masteryGo, hcur, hch]
        apply ih
        intro p hp
        rcases mem_dset _ _ _ _ hp with hold | hnew
        · exact h p hold
        · rw [hnew]
          constructor
          · exact le_max_left 0 _
          · exact max_le (by norm_num) (min_le_left 1 _)

theorem finishEvaluate_mastery (st : LearningSystem) (ch : Dict String ℚ) (c r : ℚ) :
    (finishEvaluate st ch c r).1.mastery.categories
      = (updateMasteryLevels st.mastery.categories ch c r).1 := by
  rcases hu : updateMasteryLevels st.mastery.categories ch c r with ⟨cats, err⟩
  cases err <;> simp [finishEvaluate, hu]

theorem finishEvaluate_inv (st : LearningSystem) (ch : Dict String ℚ) (c r : ℚ)
    (h1 : dkeys st.mastery.categories = categoryNames)
    (h2 : ∀ p ∈ st.mastery.categories, 0 ≤ p.2 ∧ p.2 ≤ 1) :
    dkeys (finishEvaluate st ch c r).1.mastery.categories = categoryNames ∧
    ∀ p ∈ (finishEvaluate st ch c r).1.mastery.categories, 0 ≤ p.2 ∧ p.2 ≤ 1 := by
  rw [finishEvaluate_mastery, updateMasteryLevels]
  exact ⟨by rw [masteryGo_dkeys]; exact h1, masteryGo_values _ _ _ _ _ h2⟩

/-- One `evaluate_recipe_success` call keeps the mastery-categories
invariant: the key set stays the eight category names, and every value stays
in [0, 1] (the only mutation path is the clamped write in
`_update_mastery_levels`; every error path leaves the categories as they
were). -/
theorem evaluate_preserves_mastery (st : LearningSystem) (r : Recipe) (rating : ℚ)
    (h1 : dkeys st.mastery.categories = categoryNames)
    (h2 : ∀ p ∈ st.mastery.categories, 0 ≤ p.2 ∧ p.2 ≤ 1) :
    dkeys (evaluateRecipeSuccess st r rating).1.mastery.categories = categoryNames ∧
    ∀ p ∈ (evaluateRecipeSuccess st r rating).1.mastery.categories, 0 ≤ p.2 ∧ p.2 ≤ 1 := by
  rcases hcalc : calcComplexity r with e | q
  · simp only [evaluateRecipeSuccess, hcalc]
    exact ⟨h1, h2⟩
  · simp only [evaluateRecipeSuccess, hcalc]
    generalize hnov : isNovelCombination _ _ = res
    rcases res with _ | ⟨novel, st2⟩
    · exact ⟨h1, h2⟩
    · have hm2 : st2.mastery = st.mastery := (isNovelCombination_fields _ _ _ hnov).1
      have hk1 : dkeys st2.mastery.categories = categoryNames := by rw [hm2]; exact h1
      have hk2 : ∀ p ∈ st2.mastery.categories, 0 ≤ p.2 ∧ p.2 ≤ 1 := by rw [hm2]; exact h2
      cases novel
      · simp only [Bool.false_eq_true, if_false]
        exact finishEvaluate_inv _ _ _ _ hk1 hk2
      · simp only [if_true]
        by_cases hr : rating = 1
        · simp only [if_pos hr]
          rcases hattr : st2.successful_innovations_attr with _ | s
          · exact ⟨hk1, hk2⟩
          · refine finishEvaluate_inv _ _ _ _ ?_ ?_
            · show dkeys st2.mastery.categories = categoryNames
              exact hk1
            · show ∀ p ∈ st2.mastery.categories, 0 ≤ p.2 ∧ p.2 ≤ 1
              exact hk2
        · simp only [if_neg hr]
          exact finishEvaluate_inv _ _ _ _ hk1 hk2

theorem initMastery_dkeys : dkeys initMastery.categories = categoryNames := by
  simp [dkeys, initMastery, categoryNames, List.map_map, Function.comp]

theorem initMastery_values : ∀ p ∈ initMastery.categories, 0 ≤ p.2 ∧ p.2 ≤ 1 := by
  intro p hp
  obtain ⟨c, -, rfl⟩ := List.mem_map.mp hp
  norm_num

theorem foldl_mastery_inv :
    ∀ (events : List (Recipe × ℚ)) (st : LearningSystem),
      dkeys st.mastery.categories = categoryNames →
      (∀ p ∈ st.mastery.categories, 0 ≤ p.2 ∧ p.2 ≤ 1) →
      dkeys (events.foldl (fun s e => (evaluateRecipeSuccess s e.1 e.2).1) st).mastery.categories
        = categoryNames ∧
      ∀ p ∈ (events.foldl (fun s e => (evaluateRecipeSuccess s e.1 e.2).1) st).mastery.categories,
        0 ≤ p.2 ∧ p.2 ≤ 1 := by
  intro events
  induction events with
  | nil => intro st h1 h2; exact ⟨h1, h2⟩
  | cons e rest ih =>
    intro st h1 h2
    have h := evaluate_preserves_mastery st e.1 e.2 h1 h2
    exact ih _ h.1 h.2

/-- Sum of the values of a dict with duplicate-free keys, as a sum of
lookups over its key list. -/
theorem dict_values_sum :
    ∀ cats : Dict String ℚ, (dkeys cats).Nodup →
      (cats.map (fun p => p.2)).sum
        = ((dkeys cats).map (fun k => (dget cats k).getD 0)).sum := by
  intro cats
  induction cats with
  | nil => intro _; rfl
  | cons p rest ih =>
    intro hnd
    obtain ⟨k, v⟩ := p
    have hndc : (k :: dkeys rest).Nodup := hnd
    have hk : k ∉ dkeys rest := (List.nodup_cons.mp hndc).1
    have hnd2 : (dkeys rest).Nodup := (List.nodup_cons.mp hndc).2
    have hx : ((dkeys rest).map (fun k2 => (dget ((k, v) :: rest) k2).getD 0))
        = ((dkeys rest).map (fun k2 => (dget rest k2).getD 0)) := by
      apply List.map_congr_left
      intro k2 hk2
      have hne : ¬(k = k2) := fun h => hk (h ▸ hk2)
      simp [dget, hne]
    have hd : dkeys ((k, v) :: rest) = k :: dkeys rest := rfl
    rw [hd, List.map_cons, List.map_cons, List.sum_cons, List.sum_cons, hx, ← ih hnd2]
    have hv : dget ((k, v) :: rest) k = some v := by simp [dget]
    rw [hv]
    rfl

theorem categoryNames_nodup : categoryNames.Nodup := by
  simp [categoryNames, allCategories, SkillCategory.value]

/-- Claim C4: over every sequence of feedback events applied from the
initial state, every skill category holds a value and that value stays in
[0, 1] after every update; and the overall mastery is the arithmetic mean of
the eight category values. -/
theorem mastery_bounded_and_overall_mean (events : List (Recipe × ℚ)) :
    (∀ c : SkillCategory, ∃ v,
      dget (applyEvents events).mastery.categories c.value = some v ∧ 0 ≤ v ∧ v ≤ 1) ∧
    calculateOverallMastery (applyEvents events).mastery
      = (allCategories.map
          (fun c => masteryValue (applyEvents events).mastery.categories c)).sum / 8 := by
  have hinv := foldl_mastery_inv events initLearningSystem initMastery_dkeys initMastery_values
  have h1 : dkeys (applyEvents events).mastery.categories = categoryNames := hinv.1
  have h2 : ∀ p ∈ (applyEvents events).mastery.categories, 0 ≤ p.2 ∧ p.2 ≤ 1 := hinv.2
  constructor
  · intro c
    have hc : c.value ∈ categoryNames := by
      cases c <;> simp [categoryNames, allCategories, SkillCategory.value]
    have hs : (dget (applyEvents events).mastery.categories c.value).isSome := by
      apply dget_isSome_of_mem_dkeys
      rw [h1]
      exact hc
    obtain ⟨v, hv⟩ := Option.isSome_iff_exists.mp hs
    have hmem := mem_of_dget_eq_some _ _ _ hv
    exact ⟨v, hv, (h2 _ hmem).1, (h2 _ hmem).2⟩
  · have hlen : (applyEvents events).mastery.categories.length = 8 := by
      have : (dkeys (applyEvents events).mastery.categories).length = 8 := by
        rw [h1]
        rfl
      simpa [dkeys] using this
    have hsum := dict_values_sum (applyEvents events).mastery.categories
      (by rw [h1]; exact categoryNames_nodup)
    rw [calculateOverallMastery, hsum, hlen, h1]
    have hmap : (categoryNames.map
        (fun k => (dget (applyEvents events).mastery.categories k).getD 0))
        = (allCategories.map
            (fun c => masteryValue (applyEvents events).mastery.categories c)) := by
      rw [categoryNames, List.map_map]
      rfl
    rw [hmap]
    norm_num

/-! ### Claim C5 -/

/-- The Bayesian fold acts on each ordered matrix cell independently: after
folding over a pair list, a cell's (score, confidence) is the blend iterated
once per occurrence of that cell's ordered pair. -/
theorem foldl_bayes_cell (r : ℚ) (a b : String) :
    ∀ (ps : List (String × String)) (st : IngredientLearner),
      ((ps.foldl (bayesStep r) st).compatibility_matrix a b,
       (ps.foldl (bayesStep r) st).confidence_scores a b)
        = bayesIter r (ps.count (a, b))
            (st.compatibility_matrix a b, st.confidence_scores a b) := by
  intro ps
  induction ps with
  | nil => intro st; rfl
  | cons p rest ih =>
    intro st
    rw [List.foldl_cons, ih, List.count_cons]
    by_cases hp : (a, b) = p
    · have hp1 : a = p.1 := by rw [← hp]
      have hp2 : b = p.2 := by rw [← hp]
      have hcond : a = p.1 ∧ b = p.2 := ⟨hp1, hp2⟩
      have hcell1 : (bayesStep r st p).compatibility_matrix a b
          = (st.compatibility_matrix p.1 p.2 * st.confidence_scores p.1 p.2 + r)
            / (st.confidence_scores p.1 p.2 + 1) := by
        simp [bayesStep, hcond]
      have hcell2 : (bayesStep r st p).confidence_scores a b
          = st.confidence_scores p.1 p.2 + 1 := by
        simp [bayesStep, hcond]
      simp only [beq_iff_eq, hcell1, hcell2, ← hp1, ← hp2]
      rw [if_pos hp.symm]
      simp [bayesIter]
    · have hp2 : ¬(a = p.1 ∧ b = p.2) := fun hh => hp (by rw [hh.1, hh.2])
      have hc1 : (bayesStep r st p).compatibility_matrix a b
          = st.compatibility_matrix a b := by
        simp [bayesStep, hp2]
      have hc2 : (bayesStep r st p).confidence_scores a b
          = st.confidence_scores a b := by
        simp [bayesStep, hp2]
      simp only [beq_iff_eq, hc1, hc2]
      rw [if_neg (fun h => hp h.symm), Nat.add_zero]

theorem count_filterMap_inner (x a b : String) (hab : a ≠ b) :
    ∀ l2 : List String,
      (l2.filterMap (fun i2 => if x ≠ i2 then some (x, i2) else none)).count (a, b)
        = if x = a then l2.count b else 0 := by
  intro l2
  induction l2 with
  | nil => simp
  | cons z zs ih =>
    simp only [List.filterMap_cons]
    by_cases hxz : x ≠ z
    · simp only [if_pos hxz, List.count_cons, ih, beq_iff_eq, Prod.mk.injEq]
      by_cases hxa : x = a
      · by_cases hzb : z = b
        · simp [hxa, hzb, List.count_cons]
        · simp [hxa, hzb, List.count_cons, Ne.symm hzb]
      · simp [hxa, List.count_cons]
    · rw [not_not] at hxz
      have hnone : (if x ≠ z then some (x, z) else none) = none :=
        if_neg (not_not_intro hxz)
      simp only [hnone, ih]
      by_cases hxa : x = a
      · have hzb : ¬(z = b) := by
          rw [← hxz, hxa]
          exact hab
        simp [hxa, List.count_cons, hzb, Ne.symm hzb]
      · simp [hxa]

theorem count_flatMap_pairs (a b : String) (hab : a ≠ b) (l2 : List String) :
    ∀ l1 : List String,
      (l1.flatMap (fun i1 =>
          l2.filterMap (fun i2 => if i1 ≠ i2 then some (i1, i2) else none))).count (a, b)
        = l1.count a * l2.count b := by
  intro l1
  induction l1 with
  | nil => simp
  | cons x xs ih =>
    rw [List.flatMap_cons, List.count_append, ih, count_filterMap_inner x a b hab l2,
      List.count_cons]
    by_cases hxa : x = a
    · simp only [if_pos hxa, beq_iff_eq]
      ring
    · simp only [if_neg hxa, beq_iff_eq]
      ring

/-- The double loop of `learn_from_feedback` visits the ordered pair `(a, b)`
once per occurrence of `a` times occurrence of `b` (for distinct names). -/
theorem count_orderedPairs (a b : String) (hab : a ≠ b) (l : List String) :
    (orderedPairs l).count (a, b) = l.count a * l.count b :=
  count_flatMap_pairs a b hab l l

/-- The `i1 != i2` guard skips every same-name pair. -/
theorem count_orderedPairs_self (a : String) (l : List String) :
    (orderedPairs l).count (a, a) = 0 := by
  apply List.count_eq_zero.mpr
  intro hmem
  unfold orderedPairs at hmem
  rw [List.mem_flatMap] at hmem
  obtain ⟨i1, -, hm⟩ := hmem
  rw [List.mem_filterMap] at hm
  obtain ⟨i2, -, hm2⟩ := hm
  by_cases h : i1 ≠ i2
  · rw [if_pos h] at hm2
    have h12 : i1 = a ∧ i2 = a := by
      have := Option.some.inj hm2
      exact ⟨congrArg Prod.fst this, congrArg Prod.snd this⟩
    exact h (h12.1.trans h12.2.symm)
  · rw [if_neg h] at hm2
    cases hm2

/-- The two directed cells of any pair receive the same number of identical
blends in one `learn_from_feedback` call. -/
theorem learnFromFeedback_symm (st : IngredientLearner)
    (hsym : ∀ a b, st.compatibility_matrix a b = st.compatibility_matrix b a ∧
      st.confidence_scores a b = st.confidence_scores b a)
    (l : List String) (r : ℚ) :
    ∀ a b, (learnFromFeedback st l r).compatibility_matrix a b
        = (learnFromFeedback st l r).compatibility_matrix b a ∧
      (learnFromFeedback st l r).confidence_scores a b
        = (learnFromFeedback st l r).confidence_scores b a := by
  intro a b
  have h1 := foldl_bayes_cell r a b (orderedPairs l) st
  have h2 := foldl_bayes_cell r b a (orderedPairs l) st
  have hcnt : (orderedPairs l).count (a, b) = (orderedPairs l).count (b, a) := by
    by_cases hab : a = b
    · rw [hab]
    · rw [count_orderedPairs a b hab l, count_orderedPairs b a (Ne.symm hab) l]
      ring
  have hstart : (st.compatibility_matrix a b, st.confidence_scores a b)
      = (st.compatibility_matrix b a, st.confidence_scores b a) := by
    rw [(hsym a b).1, (hsym a b).2]
  have hh : ((learnFromFeedback st l r).compatibility_matrix a b,
      (learnFromFeedback st l r).confidence_scores a b)
      = ((learnFromFeedback st l r).compatibility_matrix b a,
        (learnFromFeedback st l r).confidence_scores b a) := by
    exact h1.trans (by rw [hcnt, hstart]; exact h2.symm)
  exact ⟨congrArg Prod.fst hh, congrArg Prod.snd hh⟩

/-- Claim C5: over every sequence of `learn_from_feedback` calls from the
initial state, the compatibility score and the confidence count of `(A, B)`
always equal those of `(B, A)`: the double loop visits the two directions of
every pair equally often, applying identical blends. -/
theorem compatibility_symmetry :
    ∀ (updates : List (List String × ℚ)) (a b : String),
      (applyCompatUpdates updates).compatibility_matrix a b
        = (applyCompatUpdates updates).compatibility_matrix b a ∧
      (applyCompatUpdates updates).confidence_scores a b
        = (applyCompatUpdates updates).confidence_scores b a := by
  intro updates
  suffices h : ∀ (us : List (List String × ℚ)) (st : IngredientLearner),
      (∀ a b, st.compatibility_matrix a b = st.compatibility_matrix b a ∧
        st.confidence_scores a b = st.confidence_scores b a) →
      ∀ a b, (us.foldl (fun s u => learnFromFeedback s u.1 u.2) st).compatibility_matrix a b
          = (us.foldl (fun s u => learnFromFeedback s u.1 u.2) st).compatibility_matrix b a ∧
        (us.foldl (fun s u => learnFromFeedback s u.1 u.2) st).confidence_scores a b
          = (us.foldl (fun s u => learnFromFeedback s u.1 u.2) st).confidence_scores b a by
    exact h updates initIngredientLearner (fun _ _ => ⟨rfl, rfl⟩)
  intro us
  induction us with
  | nil => intro st hsym; exact hsym
  | cons u rest ih =>
    intro st hsym
    exact ih _ (learnFromFeedback_symm st hsym u.1 u.2)

/-! ### Claim C7 -/

theorem scenarioFlavor_eq :
    scenarioFlavor =
      [("lemon", [("chicken", 1)]), ("chicken", [("lemon", 1), ("garlic", 1)]),
       ("garlic", [("chicken", 1), ("onion", 1)]), ("onion", [("garlic", 1)])] := by
  show scenarioState.flavor_combinations = _
  simp only [scenarioState, evaluate_feedback_flavor]
  simp [flavorFold, pairsOf, updateFlavorPairing, fcEnsureRow, fcEnsureCell, fcAdd,
    fcRow, fcVal, dget, dset, flavorChange, initLearningSystem]

/-- Any instance of the two-hop pattern lands in the generated experiment
list: `A` has positive-scoring partner `B`, `B` has positive-scoring partner
`C`, `C` is not `A` and not already a key of `A`'s row. -/
theorem suggest_mem_aux (fc : Dict String (Dict String ℚ)) (ing1 ing2 ing3 : String)
    (row1 row2 : Dict String ℚ) (s12 s23 : ℚ)
    (h1 : dget fc ing1 = some row1) (h2 : dget fc ing2 = some row2)
    (h3 : (ing2, s12) ∈ row1) (h4 : dget row1 ing2 = some s12) (h5 : 0 < s12)
    (h6 : (ing3, s23) ∈ row2) (h7 : dget row2 ing3 = some s23) (h8 : 0 < s23)
    (h9 : dget row1 ing3 = none) (h10 : ing3 ≠ ing1) :
    (⟨[ing1, ing3], "Based on mutual success with " ++ ing2, min s12 s23 / 10⟩ : Experiment)
      ∈ suggestExperimentsRaw fc := by
  have hrow1 : fcRow fc ing1 = row1 := by rw [fcRow, h1]; rfl
  have hrow2 : fcRow fc ing2 = row2 := by rw [fcRow, h2]; rfl
  unfold suggestExperimentsRaw
  apply List.mem_flatMap.mpr
  refine ⟨ing1, mem_dkeys_of_dget_eq_some _ _ _ h1, ?_⟩
  simp only [hrow1, hrow2]
  apply List.mem_flatMap.mpr
  refine ⟨ing2, ?_, ?_⟩
  · apply List.mem_map.mpr
    refine ⟨(ing2, s12), ?_, rfl⟩
    apply List.mem_filter.mpr
    exact ⟨h3, by simp [h5]⟩
  · simp only [hrow2]
    apply List.mem_filterMap.mpr
    refine ⟨(ing3, s23), h6, ?_⟩
    rw [if_pos ⟨h8, by simp [h9], h10⟩]
    simp [h4, h7, hrow2]

/-- Claim C7: `suggest_experiments` performs the two-hop transitive closure
(for every ingredient A with a positive-scoring partner B and every
positive-scoring partner C of B with C neither A nor already a key of A's
row, the proposal (A, C) with confidence min(score(A,B), score(B,C))/10 is
in the output), the output is sorted by non-increasing confidence, and in
the lemon/chicken/garlic/onion scenario the (lemon, garlic) proposal with
confidence min(1,1)/10 is produced. -/
theorem suggest_experiments_two_hop :
    (∀ (fc : Dict String (Dict String ℚ)) (ing1 ing2 ing3 : String)
        (row1 row2 : Dict String ℚ) (s12 s23 : ℚ),
      dget fc ing1 = some row1 → dget fc ing2 = some row2 →
      (ing2, s12) ∈ row1 → dget row1 ing2 = some s12 → 0 < s12 →
      (ing3, s23) ∈ row2 → dget row2 ing3 = some s23 → 0 < s23 →
      dget row1 ing3 = none → ing3 ≠ ing1 →
      (⟨[ing1, ing3], "Based on mutual success with " ++ ing2,
        min s12 s23 / 10⟩ : Experiment) ∈ suggestExperiments fc) ∧
    (∀ fc : Dict String (Dict String ℚ),
      (suggestExperiments fc).Pairwise (fun e1 e2 => e2.confidence ≤ e1.confidence)) ∧
    lemonGarlicExperiment ∈ suggestExperiments scenarioFlavor := by
  refine ⟨?_, ?_, ?_⟩
  · intro fc ing1 ing2 ing3 row1 row2 s12 s23 h1 h2 h3 h4 h5 h6 h7 h8 h9 h10
    rw [suggestExperiments, List.mem_mergeSort]
    exact suggest_mem_aux fc ing1 ing2 ing3 row1 row2 s12 s23 h1 h2 h3 h4 h5 h6 h7 h8 h9 h10
  · intro fc
    have htrans : ∀ a b c : Experiment, expLe a b → expLe b c → expLe a c := by
      intro a b c hab hbc
      simp only [expLe, decide_eq_true_eq] at *
      exact le_trans hbc hab
    have htotal : ∀ a b : Experiment, expLe a b || expLe b a := by
      intro a b
      simp only [expLe, Bool.or_eq_true, decide_eq_true_eq]
      exact le_total b.confidence a.confidence
    have hs := List.sorted_mergeSort htrans htotal (suggestExperimentsRaw fc)
    rw [suggestExperiments]
    refine hs.imp ?_
    intro a b h
    simpa [expLe] using h
  · rw [suggestExperiments, List.mem_mergeSort, scenarioFlavor_eq]
    have hm := suggest_mem_aux
      [("lemon", [("chicken", 1)]), ("chicken", [("lemon", 1), ("garlic", 1)]),
       ("garlic", [("chicken", 1), ("onion", 1)]), ("onion", [("garlic", 1)])]
      "lemon" "chicken" "garlic" [("chicken", 1)] [("lemon", 1), ("garlic", 1)] 1 1
      (by simp [dget]) (by simp [dget]) (by simp) (by simp [dget]) (by norm_num)
      (by simp) (by simp [dget]) (by norm_num) (by simp [dget]) (by simp)
    have heq : lemonGarlicExperiment =
        (⟨["lemon", "garlic"], "Based on mutual success with " ++ "chicken",
          min 1 1 / 10⟩ : Experiment) := by
      simp [lemonGarlicExperiment]
    rw [heq]
    exact hm

/-- Witness for C7, discharging the two-hop hypotheses at the scenario
state. -/
theorem suggest_experiments_two_hop_witness :
    (⟨["lemon", "garlic"], "Based on mutual success with " ++ "chicken",
      min 1 1 / 10⟩ : Experiment) ∈ suggestExperiments
        [("lemon", [("chicken", 1)]), ("chicken", [("lemon", 1), ("garlic", 1)]),
         ("garlic", [("chicken", 1), ("onion", 1)]), ("onion", [("garlic", 1)])] :=
  suggest_experiments_two_hop.1
    [("lemon", [("chicken", 1)]), ("chicken", [("lemon", 1), ("garlic", 1)]),
     ("garlic", [("chicken", 1), ("onion", 1)]), ("onion", [("garlic", 1)])]
    "lemon" "chicken" "garlic" [("chicken", 1)] [("lemon", 1), ("garlic", 1)] 1 1
    (by simp [dget]) (by simp [dget]) (by simp) (by simp [dget]) (by norm_num)
    (by simp) (by simp [dget]) (by norm_num) (by simp [dget]) (by simp)
